import Mathlib

/-!
Shallow embedding of the detection post-processing pipeline in `src/main.py`:
the geometry helper `iou`, the greedy NMS routine `non_max_suppression`, and
the score-filter / metadata-reassembly logic of `main`.

Conventions of the embedding:
* Python floats are modelled as exact rationals (`Rat`); every comparison and
  division in the source is exact arithmetic on small literals, so `Rat` is a
  faithful carrier.
* NumPy arrays are modelled as `List`s.  `np.where(cond)[0]` is the ascending
  list of positions where `cond` holds (`npWhere`).  `np.argsort` is modelled
  as a stable ascending argsort (`argsortAsc`): ties keep input order, which
  matches NumPy's behaviour on the small tie groups analysed here (NumPy's
  default sort leaves a tied pair in input order).
* `non_max_suppression` in the source returns a bare `[]` on an empty pool but
  a pair of lists otherwise; the sum-like `NmsResult` captures exactly that,
  and the tuple unpacking in `main` is modelled as `Except`, erring precisely
  when Python would raise `ValueError` on unpacking.
-/

deriving instance DecidableEq for Except

/-- Axis-aligned box `[x1, y1, x2, y2]` (lines 3-11 of `src/main.py`). -/
structure Box where
  x1 : Rat
  y1 : Rat
  x2 : Rat
  y2 : Rat
deriving DecidableEq, Repr

instance : Inhabited Box := ⟨⟨0, 0, 0, 0⟩⟩

/-- Intersection area of two boxes: overlap rectangle with width and height
clamped at 0 (lines 8-15 of `src/main.py`). -/
def interArea (box1 box2 : Box) : Rat :=
  let inter_width := max 0 (min box1.x2 box2.x2 - max box1.x1 box2.x1)
  let inter_height := max 0 (min box1.y2 box2.y2 - max box1.y1 box2.y1)
  inter_width * inter_height

/-- Area of a box, `(x2-x1)*(y2-y1)` (lines 17-18 of `src/main.py`). -/
def boxArea (b : Box) : Rat :=
  (b.x2 - b.x1) * (b.y2 - b.y1)

/-- Union area `box1_area + box2_area - inter_area` (line 20 of `src/main.py`). -/
def unionArea (box1 box2 : Box) : Rat :=
  boxArea box1 + boxArea box2 - interArea box1 box2

/-- IoU of two boxes, with the explicit division-by-zero guard of
lines 22-25 of `src/main.py`: if the union area is 0 the function returns 0. -/
def iou (box1 box2 : Box) : Rat :=
  if unionArea box1 box2 = 0 then 0 else interArea box1 box2 / unionArea box1 box2

/-- Model of `np.where(cond)[0]`: the positions at which `cond` is true, in
increasing order. -/
def npWhere (cond : List Bool) : List Nat :=
  (List.range cond.length).filter (fun i => cond.getD i false)

/-- Stable insertion of index `i` into a list of indices sorted ascending by
score; on a tie the inserted index goes first, which makes the fold below a
stable sort. -/
def insertAsc (scores : List Rat) (i : Nat) : List Nat → List Nat
  | [] => [i]
  | j :: l => if scores.getD i 0 ≤ scores.getD j 0 then i :: j :: l
              else j :: insertAsc scores i l

/-- Model of `np.argsort(scores)` (line 38 of `src/main.py`): indices of
`scores` sorted ascending by score, stably (ties keep input order). -/
def argsortAsc (scores : List Rat) : List Nat :=
  (List.range scores.length).foldr (insertAsc scores) []

/-- One pruning round of the NMS loop (lines 53-58 of `src/main.py`): compute
the IoU of the freshly kept box against every remaining candidate index, take
the positions where the IoU is strictly below the threshold (`np.where`), and
re-index the candidate list with them. -/
def pruneStep (boxes : List Box) (iou_threshold : Rat) (best_box_idx : Nat)
    (rest : List Nat) : List Nat :=
  let ious := rest.map (fun idx => iou (boxes.getD best_box_idx default) (boxes.getD idx default))
  let remaining_positions := npWhere (ious.map (fun v => decide (v < iou_threshold)))
  remaining_positions.map (fun p => rest.getD p 0)

/-- Fuel-indexed form of the `while` loop of lines 42-58 of `src/main.py`.
The fuel only serves structural recursion; `nmsLoop` instantiates it with the
length of the candidate list, which is always sufficient because every round
pops one index and prunes the rest (the `0, _ :: _` arm is unreachable then). -/
def nmsLoopF (boxes : List Box) (iou_threshold : Rat) : Nat → List Nat → List Nat
  | _, [] => []
  | 0, _ :: _ => []
  | fuel + 1, best :: rest =>
      best :: nmsLoopF boxes iou_threshold fuel (pruneStep boxes iou_threshold best rest)

/-- The `while` loop of lines 42-58 of `src/main.py`: pop the highest-scoring
remaining index, keep it, prune the rest by IoU, repeat. -/
def nmsLoop (boxes : List Box) (iou_threshold : Rat) (l : List Nat) : List Nat :=
  nmsLoopF boxes iou_threshold l.length l

/-- Result type of `non_max_suppression`: the source returns a bare `[]` on an
empty pool (line 35) but a pair `(kept_boxes, kept_scores)` otherwise
(line 60). -/
inductive NmsResult where
  | empty : NmsResult
  | pair (final_boxes : List Box) (final_scores : List Rat) : NmsResult
deriving DecidableEq, Repr

/-- Kept indices of NMS: run the suppression loop over the score-descending
index order `np.argsort(scores)[::-1]` (lines 38-58 of `src/main.py`). -/
def nmsKeepIndices (boxes : List Box) (scores : List Rat) (iou_threshold : Rat) : List Nat :=
  nmsLoop boxes iou_threshold (argsortAsc scores).reverse

/-- `non_max_suppression` of `src/main.py` (lines 27-60). -/
def non_max_suppression (boxes : List Box) (scores : List Rat) (iou_threshold : Rat) :
    NmsResult :=
  if boxes.length = 0 then NmsResult.empty
  else
    let keep_boxes := nmsKeepIndices boxes scores iou_threshold
    NmsResult.pair (keep_boxes.map (fun i => boxes.getD i default))
      (keep_boxes.map (fun i => scores.getD i 0))

/-- One prediction record `[x1, y1, x2, y2, score, class_id, class_name]`, the
shape of both the raw predictions (line 85) and the reassembled final
predictions (lines 146-149) of `src/main.py`. -/
structure Prediction where
  x1 : Rat
  y1 : Rat
  x2 : Rat
  y2 : Rat
  score : Rat
  class_id : Int
  class_name : String
deriving DecidableEq, Repr

/-- The box part `p[:4]` of a prediction record. -/
def Prediction.box (p : Prediction) : Box := ⟨p.x1, p.y1, p.x2, p.y2⟩

/-- Line 110 of `src/main.py`: the array of boxes of the raw predictions. -/
def predBoxes (raw : List Prediction) : List Box := raw.map Prediction.box

/-- Line 111 of `src/main.py`: the array of scores of the raw predictions. -/
def predScores (raw : List Prediction) : List Rat := raw.map Prediction.score

/-- Line 112 of `src/main.py`: the array of class ids of the raw predictions. -/
def predClassIds (raw : List Prediction) : List Int := raw.map Prediction.class_id

/-- Line 113 of `src/main.py`: the list of class names of the raw predictions. -/
def predClassNames (raw : List Prediction) : List String := raw.map Prediction.class_name

/-- Line 117 of `src/main.py`: `np.where(scores >= score_threshold)[0]`. -/
def high_confidence_indices (raw : List Prediction) (score_threshold : Rat) : List Nat :=
  npWhere ((predScores raw).map (fun s => decide (score_threshold ≤ s)))

/-- Line 119 of `src/main.py`: `boxes[high_confidence_indices]`. -/
def filtered_boxes (raw : List Prediction) (score_threshold : Rat) : List Box :=
  (high_confidence_indices raw score_threshold).map (fun i => (predBoxes raw).getD i default)

/-- Line 120 of `src/main.py`: `scores[high_confidence_indices]`. -/
def filtered_scores (raw : List Prediction) (score_threshold : Rat) : List Rat :=
  (high_confidence_indices raw score_threshold).map (fun i => (predScores raw).getD i 0)

/-- Line 121 of `src/main.py`: `class_ids[high_confidence_indices]`. -/
def filtered_class_ids (raw : List Prediction) (score_threshold : Rat) : List Int :=
  (high_confidence_indices raw score_threshold).map (fun i => (predClassIds raw).getD i 0)

/-- Line 122 of `src/main.py`: `[class_names[i] for i in high_confidence_indices]`. -/
def filtered_class_names (raw : List Prediction) (score_threshold : Rat) : List String :=
  (high_confidence_indices raw score_threshold).map (fun i => (predClassNames raw).getD i "")

/-- The inner scan of lines 144-150 of `src/main.py`: the first index `i` of
the filtered arrays whose box and score both equal the given final box and
score (`np.array_equal(final_box, filtered_boxes[i]) and final_score ==
filtered_scores[i]`, first hit wins because of the `break`). -/
def firstMatchIdx (fboxes : List Box) (fscores : List Rat) (fb : Box) (fs : Rat) : Option Nat :=
  (List.range fboxes.length).find?
    (fun i => decide (fboxes.getD i default = fb ∧ fscores.getD i 0 = fs))

/-- The reassembly loop of lines 143-150 of `src/main.py`: for every
`(final_box, final_score)` pair, look up the first filtered entry with equal
box and score and emit a 7-field record carrying that entry's class id and
class name; if no entry matches, nothing is appended. -/
def reassemble (final_boxes : List Box) (final_scores : List Rat)
    (fboxes : List Box) (fscores : List Rat) (fids : List Int) (fnames : List String) :
    List Prediction :=
  (final_boxes.zip final_scores).filterMap (fun bs =>
    (firstMatchIdx fboxes fscores bs.1 bs.2).map (fun i =>
      ⟨bs.1.x1, bs.1.y1, bs.1.x2, bs.1.y2, bs.2, fids.getD i 0, fnames.getD i ""⟩))

/-- The pipeline body of `main` (lines 110-150 of `src/main.py`), parameterised
by the raw predictions and the two thresholds that `main` fixes to 0.5: score
filter, then NMS, then metadata reassembly.  The tuple unpacking
`final_boxes, final_scores = non_max_suppression(...)` raises `ValueError` in
Python when the callee returned the bare `[]`; that is the `Except.error`
branch. -/
def runPipeline (raw : List Prediction) (score_threshold iou_threshold : Rat) :
    Except String (List Prediction) :=
  match non_max_suppression (filtered_boxes raw score_threshold)
      (filtered_scores raw score_threshold) iou_threshold with
  | NmsResult.empty => Except.error "ValueError: not enough values to unpack"
  | NmsResult.pair final_boxes final_scores =>
      Except.ok (reassemble final_boxes final_scores
        (filtered_boxes raw score_threshold) (filtered_scores raw score_threshold)
        (filtered_class_ids raw score_threshold) (filtered_class_names raw score_threshold))

/-- Order-preserving score filter as the spec words it (§4.2): keep exactly
the records with `score >= scoreThreshold`, in input order.  This is the
comparison point for the refinement claim about the index-based filter of
`main`; it is not part of the source translation. -/
def scoreFilterSpec (raw : List Prediction) (score_threshold : Rat) : List Prediction :=
  raw.filter (fun p => decide (score_threshold ≤ p.score))

/-! ## Helper lemmas about the embedded primitives -/

theorem npWhere_nil : npWhere [] = [] := rfl

theorem npWhere_cons (b : Bool) (bs : List Bool) :
    npWhere (b :: bs) = (if b then [0] else []) ++ (npWhere bs).map Nat.succ := by
  unfold npWhere
  rw [List.length_cons, List.range_succ_eq_map, List.filter_cons, List.filter_map]
  cases b <;>
    simp [Function.comp_def, Nat.succ_eq_add_one, List.getD_cons_succ, List.getD_cons_zero]

/-- Master lemma for NumPy-style boolean-mask indexing: taking the positions
where a mapped predicate holds and re-indexing a mapped copy of the same list
is exactly an order-preserving filter. -/
theorem npWhere_map_getD (l : List α) (p : α → Bool) (f : α → β) (d : β) :
    (npWhere (l.map p)).map (fun i => (l.map f).getD i d) = (l.filter p).map f := by
  induction l with
  | nil => rfl
  | cons x xs ih =>
    simp only [List.map_cons]
    rw [npWhere_cons, List.filter_cons]
    cases hpx : p x <;>
    · simp [List.map_append, List.map_map, Function.comp_def, Nat.succ_eq_add_one,
        List.getD_cons_succ, List.getD_cons_zero, hpx]
      simpa [List.getD] using ih

/-- The pruning round of the NMS loop is an order-preserving filter of the
candidate indices by the strict IoU test. -/
theorem pruneStep_eq_filter (boxes : List Box) (t : Rat) (best : Nat) (rest : List Nat) :
    pruneStep boxes t best rest =
      rest.filter
        (fun idx => decide (iou (boxes.getD best default) (boxes.getD idx default) < t)) := by
  show (npWhere ((rest.map
      (fun idx => iou (boxes.getD best default) (boxes.getD idx default))).map
        (fun v => decide (v < t)))).map (fun p => rest.getD p 0) = _
  rw [List.map_map]
  have h := npWhere_map_getD rest
    (fun idx => decide (iou (boxes.getD best default) (boxes.getD idx default) < t))
    (fun idx => idx) 0
  simpa [Function.comp, List.map_id] using h

theorem insertAsc_perm (s : List Rat) (i : Nat) (l : List Nat) :
    (insertAsc s i l).Perm (i :: l) := by
  induction l with
  | nil => exact List.Perm.refl _
  | cons j js ih =>
    rw [insertAsc]
    split
    · exact List.Perm.refl _
    · exact (ih.cons j).trans (List.Perm.swap i j js)

theorem foldr_insertAsc_perm (s : List Rat) (l : List Nat) :
    (l.foldr (insertAsc s) []).Perm l := by
  induction l with
  | nil => exact List.Perm.refl _
  | cons x xs ih => exact (insertAsc_perm s x _).trans (ih.cons x)

theorem argsortAsc_perm (s : List Rat) :
    (argsortAsc s).Perm (List.range s.length) :=
  foldr_insertAsc_perm s _

theorem argsortAsc_nodup (s : List Rat) : (argsortAsc s).Nodup :=
  (argsortAsc_perm s).nodup_iff.mpr (List.nodup_range _)

theorem argsortAsc_mem_lt (s : List Rat) (i : Nat) (h : i ∈ argsortAsc s) :
    i < s.length :=
  List.mem_range.mp ((argsortAsc_perm s).subset h)

theorem insertAsc_pairwise (s : List Rat) (i : Nat) (l : List Nat)
    (h : l.Pairwise (fun a b => s.getD a 0 ≤ s.getD b 0)) :
    (insertAsc s i l).Pairwise (fun a b => s.getD a 0 ≤ s.getD b 0) := by
  induction l with
  | nil => simp [insertAsc]
  | cons j js ih =>
    rw [insertAsc]
    obtain ⟨hj, hjs⟩ := List.pairwise_cons.mp h
    split
    · rename_i hij
      refine List.Pairwise.cons ?_ h
      intro b hb
      rcases List.mem_cons.mp hb with rfl | hb
      · exact hij
      · exact le_trans hij (hj b hb)
    · rename_i hij
      have hji : s.getD j 0 ≤ s.getD i 0 := le_of_lt (lt_of_not_le hij)
      refine List.Pairwise.cons ?_ (ih hjs)
      intro b hb
      rcases List.mem_cons.mp ((insertAsc_perm s i js).subset hb) with rfl | hb
      · exact hji
      · exact hj b hb

theorem argsortAsc_sorted (s : List Rat) :
    (argsortAsc s).Pairwise (fun a b => s.getD a 0 ≤ s.getD b 0) := by
  unfold argsortAsc
  generalize List.range s.length = l
  induction l with
  | nil => exact List.Pairwise.nil
  | cons x xs ih => exact insertAsc_pairwise s x _ ih

theorem insertAsc_eq_append (s : List Rat) (i : Nat) (l : List Nat)
    (h : ∀ j ∈ l, s.getD j 0 < s.getD i 0) :
    insertAsc s i l = l ++ [i] := by
  induction l with
  | nil => rfl
  | cons j js ih =>
    rw [insertAsc, if_neg (not_le.mpr (h j (List.mem_cons_self j js))), List.cons_append]
    rw [ih (fun b hb => h b (List.mem_cons_of_mem j hb))]

theorem foldr_insertAsc_of_desc (s : List Rat) (l : List Nat)
    (h : l.Pairwise (fun a b => s.getD b 0 < s.getD a 0)) :
    l.foldr (insertAsc s) [] = l.reverse := by
  induction l with
  | nil => rfl
  | cons x xs ih =>
    obtain ⟨hx, hxs⟩ := List.pairwise_cons.mp h
    rw [List.foldr_cons, ih hxs, List.reverse_cons]
    exact insertAsc_eq_append s x xs.reverse
      (fun j hj => hx j (List.mem_reverse.mp hj))

theorem nmsLoopF_sublist (boxes : List Box) (t : Rat) (fuel : Nat) :
    ∀ l : List Nat, (nmsLoopF boxes t fuel l).Sublist l := by
  induction fuel with
  | zero => intro l; cases l <;> simp [nmsLoopF]
  | succ n ih =>
    intro l
    cases l with
    | nil => simp [nmsLoopF]
    | cons best rest =>
      show (best :: nmsLoopF boxes t n (pruneStep boxes t best rest)).Sublist (best :: rest)
      refine List.Sublist.cons₂ best ((ih _).trans ?_)
      rw [pruneStep_eq_filter]
      exact List.filter_sublist _

theorem nmsLoopF_pairwise (boxes : List Box) (t : Rat) (fuel : Nat) :
    ∀ l : List Nat, (nmsLoopF boxes t fuel l).Pairwise
      (fun i j => iou (boxes.getD i default) (boxes.getD j default) < t) := by
  induction fuel with
  | zero => intro l; cases l <;> simp [nmsLoopF]
  | succ n ih =>
    intro l
    cases l with
    | nil => simp [nmsLoopF]
    | cons best rest =>
      show (best :: nmsLoopF boxes t n (pruneStep boxes t best rest)).Pairwise _
      refine List.Pairwise.cons ?_ (ih _)
      intro j hj
      have hj2 : j ∈ pruneStep boxes t best rest :=
        (nmsLoopF_sublist boxes t n _).subset hj
      rw [pruneStep_eq_filter] at hj2
      exact of_decide_eq_true (List.mem_filter.mp hj2).2

theorem nmsLoopF_eq_self (boxes : List Box) (t : Rat) (fuel : Nat) :
    ∀ l : List Nat, l.length ≤ fuel →
      l.Pairwise (fun i j => iou (boxes.getD i default) (boxes.getD j default) < t) →
      nmsLoopF boxes t fuel l = l := by
  induction fuel with
  | zero =>
    intro l hl _
    obtain rfl := List.length_eq_zero.mp (Nat.le_zero.mp hl)
    rfl
  | succ n ih =>
    intro l hl hp
    cases l with
    | nil => rfl
    | cons best rest =>
      show best :: nmsLoopF boxes t n (pruneStep boxes t best rest) = best :: rest
      have hfil : pruneStep boxes t best rest = rest := by
        rw [pruneStep_eq_filter]
        refine List.filter_eq_self.mpr ?_
        intro a ha
        exact decide_eq_true ((List.pairwise_cons.mp hp).1 a ha)
      rw [hfil, ih rest (Nat.le_of_succ_le_succ hl) hp.of_cons]

theorem map_getD_range (l : List α) (d : α) :
    (List.range l.length).map (fun i => l.getD i d) = l := by
  induction l with
  | nil => rfl
  | cons x xs ih =>
    rw [List.length_cons, List.range_succ_eq_map, List.map_cons, List.map_map]
    simp only [Function.comp_def, Nat.succ_eq_add_one, List.getD_cons_succ,
      List.getD_cons_zero]
    rw [ih]

theorem find?_eq_some_of_unique {p : Nat → Bool} {l : List Nat} {k : Nat}
    (hmem : k ∈ l) (hk : p k = true) (huniq : ∀ x ∈ l, p x = true → x = k) :
    l.find? p = some k := by
  induction l with
  | nil => cases hmem
  | cons x xs ih =>
    cases hx : p x with
    | true =>
      rw [List.find?_cons_of_pos xs hx]
      exact congrArg some (huniq x (List.mem_cons_self x xs) hx)
    | false =>
      rw [List.find?_cons_of_neg xs (by simp [hx])]
      have hkxs : k ∈ xs := by
        rcases List.mem_cons.mp hmem with rfl | h
        · rw [hk] at hx; cases hx
        · exact h
      exact ih hkxs (fun b hb => huniq b (List.mem_cons_of_mem x hb))

theorem filterMap_eq_map_of_forall {f : α → Option β} {g : α → β} (l : List α)
    (h : ∀ a ∈ l, f a = some (g a)) : l.filterMap f = l.map g := by
  induction l with
  | nil => rfl
  | cons x xs ih =>
    rw [List.filterMap_cons, h x (List.mem_cons_self x xs), List.map_cons,
      ih (fun b hb => h b (List.mem_cons_of_mem x hb))]

theorem interArea_comm (box1 box2 : Box) : interArea box1 box2 = interArea box2 box1 := by
  unfold interArea
  rw [min_comm box1.x2, max_comm box1.x1, min_comm box1.y2, max_comm box1.y1]

theorem unionArea_comm (box1 box2 : Box) : unionArea box1 box2 = unionArea box2 box1 := by
  unfold unionArea
  rw [interArea_comm, add_comm]

theorem pairwise_range_getD {α : Type} (d : α) {P : α → α → Prop} (l : List α)
    (h : l.Pairwise P) :
    (List.range l.length).Pairwise (fun a b => P (l.getD a d) (l.getD b d)) := by
  rw [List.pairwise_iff_getElem]
  intro i j hi hj hij
  rw [List.length_range] at hi hj
  simp only [List.getElem_range]
  rw [List.getD_eq_getElem l d hi, List.getD_eq_getElem l d hj]
  exact List.pairwise_iff_getElem.mp h i j hi hj hij

theorem getD_ne_of_nodup (l : List Rat) (hl : l.Nodup) (i j : Nat)
    (hi : i < l.length) (hj : j < l.length) (hij : i ≠ j) :
    l.getD i 0 ≠ l.getD j 0 := by
  rw [List.getD_eq_getElem l 0 hi, List.getD_eq_getElem l 0 hj]
  intro heq
  have h2 : (⟨i, hi⟩ : Fin l.length) = ⟨j, hj⟩ :=
    List.nodup_iff_injective_getElem.mp hl heq
  exact hij (congrArg Fin.val h2)

theorem nmsKeepIndices_sublist (boxes : List Box) (scores : List Rat) (t : Rat) :
    (nmsKeepIndices boxes scores t).Sublist (argsortAsc scores).reverse :=
  nmsLoopF_sublist boxes t _ _

theorem nmsKeepIndices_nodup (boxes : List Box) (scores : List Rat) (t : Rat) :
    (nmsKeepIndices boxes scores t).Nodup :=
  (List.nodup_reverse.mpr (argsortAsc_nodup scores)).sublist
    (nmsKeepIndices_sublist boxes scores t)

theorem nmsKeepIndices_mem_lt (boxes : List Box) (scores : List Rat) (t : Rat)
    (i : Nat) (h : i ∈ nmsKeepIndices boxes scores t) : i < scores.length :=
  argsortAsc_mem_lt scores i
    (List.mem_reverse.mp ((nmsKeepIndices_sublist boxes scores t).subset h))

theorem nmsKeepIndices_pairwise_iou (boxes : List Box) (scores : List Rat) (t : Rat) :
    (nmsKeepIndices boxes scores t).Pairwise
      (fun i j => iou (boxes.getD i default) (boxes.getD j default) < t) :=
  nmsLoopF_pairwise boxes t _ _

theorem nmsKeepIndices_sorted (boxes : List Box) (scores : List Rat) (t : Rat) :
    (nmsKeepIndices boxes scores t).Pairwise
      (fun a b => scores.getD b 0 ≤ scores.getD a 0) :=
  (List.pairwise_reverse.mpr (argsortAsc_sorted scores)).sublist
    (nmsKeepIndices_sublist boxes scores t)

theorem nmsKeepIndices_ne_nil (boxes : List Box) (scores : List Rat) (t : Rat)
    (h : scores.length ≠ 0) : nmsKeepIndices boxes scores t ≠ [] := by
  unfold nmsKeepIndices nmsLoop
  have hlen : (argsortAsc scores).reverse.length = scores.length := by
    rw [List.length_reverse, (argsortAsc_perm scores).length_eq, List.length_range]
  cases hrev : (argsortAsc scores).reverse with
  | nil => rw [hrev] at hlen; simp at hlen; exact absurd hlen.symm h
  | cons best rest => rw [List.length_cons]; exact fun hcon => List.noConfusion hcon

/-- Unfolding of `non_max_suppression` on a non-empty pool. -/
theorem non_max_suppression_pos (boxes : List Box) (scores : List Rat) (t : Rat)
    (h : boxes.length ≠ 0) :
    non_max_suppression boxes scores t =
      NmsResult.pair ((nmsKeepIndices boxes scores t).map (fun i => boxes.getD i default))
        ((nmsKeepIndices boxes scores t).map (fun i => scores.getD i 0)) := by
  unfold non_max_suppression
  rw [if_neg h]

/-! ## Claim theorems -/

/-- C4: in `non_max_suppression`, after an anchor is kept, a remaining
candidate survives the pruning round if and only if its IoU with the anchor is
strictly less than `iou_threshold`; in particular a candidate whose IoU equals
the threshold exactly is suppressed, since `t < t` is false. -/
theorem C4_strict_iou_threshold (boxes : List Box) (iou_threshold : Rat)
    (best : Nat) (rest : List Nat) (idx : Nat) :
    idx ∈ pruneStep boxes iou_threshold best rest ↔
      idx ∈ rest ∧
        iou (boxes.getD best default) (boxes.getD idx default) < iou_threshold := by
  rw [pruneStep_eq_filter, List.mem_filter]
  simp

/-- C5: the score filter of `main` keeps exactly the predictions with
`score >= score_threshold` (inclusive boundary) and preserves their relative
input order: all four filtered parallel arrays coincide with the
order-preserving filter of the raw prediction list. -/
theorem C5_score_filter_refines (raw : List Prediction) (score_threshold : Rat) :
    filtered_boxes raw score_threshold =
      (scoreFilterSpec raw score_threshold).map Prediction.box ∧
    filtered_scores raw score_threshold =
      (scoreFilterSpec raw score_threshold).map Prediction.score ∧
    filtered_class_ids raw score_threshold =
      (scoreFilterSpec raw score_threshold).map Prediction.class_id ∧
    filtered_class_names raw score_threshold =
      (scoreFilterSpec raw score_threshold).map Prediction.class_name := by
  unfold filtered_boxes filtered_scores filtered_class_ids filtered_class_names
    high_confidence_indices predBoxes predScores predClassIds predClassNames scoreFilterSpec
  rw [List.map_map]
  exact ⟨npWhere_map_getD raw _ Prediction.box default,
    npWhere_map_getD raw _ Prediction.score 0,
    npWhere_map_getD raw _ Prediction.class_id 0,
    npWhere_map_getD raw _ Prediction.class_name ""⟩

/-- C6: whenever the union area of two boxes is exactly 0, `iou` returns 0
through its guard branch, so the division is never evaluated with a zero
divisor. -/
theorem C6_iou_zero_union (box1 box2 : Box) (h : unionArea box1 box2 = 0) :
    iou box1 box2 = 0 := by
  unfold iou
  rw [if_pos h]

/-- C8: `iou` is symmetric in its two box arguments. -/
theorem C8_iou_symmetric (boxA boxB : Box) : iou boxA boxB = iou boxB boxA := by
  unfold iou
  rw [interArea_comm, unionArea_comm]

section
attribute [local semireducible] Rat.sub Rat.mul Rat.add Rat.inv

/-- Witness for C6 at a concrete degenerate pair of boxes. -/
theorem C6_iou_zero_union_witness :
    unionArea ⟨0, 0, 0, 0⟩ ⟨1, 1, 1, 1⟩ = 0 ∧ iou ⟨0, 0, 0, 0⟩ ⟨1, 1, 1, 1⟩ = 0 :=
  ⟨by decide, C6_iou_zero_union ⟨0, 0, 0, 0⟩ ⟨1, 1, 1, 1⟩ (by decide)⟩

/-- C9: for the pool A=(55,55,145,195) with score 0.95 and B=(60,60,160,210)
with score 0.88 at threshold 0.5, the IoU of A and B exceeds 0.5 and
`non_max_suppression` keeps only A. -/
theorem C9_end_to_end_scenario :
    (1 : Rat)/2 < iou ⟨55, 55, 145, 195⟩ ⟨60, 60, 160, 210⟩ ∧
    non_max_suppression [⟨55, 55, 145, 195⟩, ⟨60, 60, 160, 210⟩]
        [19/20, 22/25] (1/2) =
      NmsResult.pair [⟨55, 55, 145, 195⟩] [19/20] := by
  decide

/-- C1 (code bug): on any input whose score filter leaves zero detections,
`non_max_suppression` is called on an empty pool and returns the bare `[]`
(modelled `NmsResult.empty`), so the tuple unpacking in `main` raises
`ValueError` instead of producing an empty detection sequence.  Evaluations at
an empty raw input and at a raw input whose only score 0.3 falls below the
0.5 threshold. -/
theorem C1_empty_pool_raises :
    non_max_suppression [] [] (1/2) = NmsResult.empty ∧
    runPipeline [] (1/2) (1/2) =
      Except.error "ValueError: not enough values to unpack" ∧
    runPipeline [⟨10, 10, 30, 30, 3/10, 0, "người"⟩] (1/2) (1/2) =
      Except.error "ValueError: not enough values to unpack" := by
  decide

/-- Counterexample for C2: two detections with equal scores 0.9 whose boxes
mutually overlap with IoU 0.9 ≥ 0.5.  The claim predicts the earlier-input box
(0,0,10,10) is kept; the code keeps the later-input box (0,0,10,9), because
`np.argsort(scores)[::-1]` visits tied indices in reverse input order. -/
theorem C2_counterexample :
    (1 : Rat)/2 ≤ iou ⟨0, 0, 10, 9⟩ ⟨0, 0, 10, 10⟩ ∧
    (1 : Rat)/2 ≤ iou ⟨0, 0, 10, 10⟩ ⟨0, 0, 10, 9⟩ ∧
    non_max_suppression [⟨0, 0, 10, 10⟩, ⟨0, 0, 10, 9⟩] [9/10, 9/10] (1/2) =
      NmsResult.pair [⟨0, 0, 10, 9⟩] [9/10] ∧
    NmsResult.pair [(⟨0, 0, 10, 9⟩ : Box)] [(9 : Rat)/10] ≠
      NmsResult.pair [⟨0, 0, 10, 10⟩] [9/10] := by
  decide

/-- Counterexample for C3: two raw predictions with identical boxes and
identical scores 0.9 but different class metadata.  NMS keeps the detection at
filtered index 1 (class id 1, "xe"), yet the value-based re-matching of
lines 143-150 returns the metadata of filtered index 0 (class id 0, "người"),
so the final detection does not carry its originating detection's class. -/
theorem C3_counterexample :
    nmsKeepIndices
        (filtered_boxes [⟨0, 0, 10, 10, 9/10, 0, "người"⟩, ⟨0, 0, 10, 10, 9/10, 1, "xe"⟩] (1/2))
        (filtered_scores [⟨0, 0, 10, 10, 9/10, 0, "người"⟩, ⟨0, 0, 10, 10, 9/10, 1, "xe"⟩] (1/2))
        (1/2) = [1] ∧
    (filtered_class_ids [⟨0, 0, 10, 10, 9/10, 0, "người"⟩, ⟨0, 0, 10, 10, 9/10, 1, "xe"⟩]
        (1/2)).getD 1 0 = 1 ∧
    (filtered_class_names [⟨0, 0, 10, 10, 9/10, 0, "người"⟩, ⟨0, 0, 10, 10, 9/10, 1, "xe"⟩]
        (1/2)).getD 1 "" = "xe" ∧
    runPipeline [⟨0, 0, 10, 10, 9/10, 0, "người"⟩, ⟨0, 0, 10, 10, 9/10, 1, "xe"⟩] (1/2) (1/2) =
      Except.ok [⟨0, 0, 10, 10, 9/10, 0, "người"⟩] := by
  decide

/-- Counterexample for C7: two disjoint boxes with equal scores.  One run of
`non_max_suppression` keeps both but returns them in reversed order (tied
scores are visited in reverse input order); running the suppression again on
its own output reverses the tied pair once more, so the second run does not
return the first run's output. -/
theorem C7_counterexample :
    non_max_suppression [⟨0, 0, 10, 10⟩, ⟨20, 20, 30, 30⟩] [9/10, 9/10] (1/2) =
      NmsResult.pair [⟨20, 20, 30, 30⟩, ⟨0, 0, 10, 10⟩] [9/10, 9/10] ∧
    non_max_suppression [⟨20, 20, 30, 30⟩, ⟨0, 0, 10, 10⟩] [9/10, 9/10] (1/2) =
      NmsResult.pair [⟨0, 0, 10, 10⟩, ⟨20, 20, 30, 30⟩] [9/10, 9/10] ∧
    NmsResult.pair [(⟨0, 0, 10, 10⟩ : Box), ⟨20, 20, 30, 30⟩] [(9 : Rat)/10, 9/10] ≠
      NmsResult.pair [⟨20, 20, 30, 30⟩, ⟨0, 0, 10, 10⟩] [9/10, 9/10] := by
  decide

end

/-- C2 (amended): on a two-detection pool with tied scores, the code's
processing order is the reversal of a stable ascending-by-score argsort, so
the tied detections are visited in reverse input order; when they mutually
overlap at or above the threshold, the later-input detection of the tied pair
is the one kept. -/
theorem C2_amended_tie_reversal (b0 b1 : Box) (s t : Rat) (h : t ≤ iou b1 b0) :
    non_max_suppression [b0, b1] [s, s] t = NmsResult.pair [b1] [s] := by
  have hsort : argsortAsc [s, s] = [0, 1] := by
    show insertAsc [s, s] 0 (insertAsc [s, s] 1 []) = [0, 1]
    rw [insertAsc, insertAsc]
    simp
  have hkeep : nmsKeepIndices [b0, b1] [s, s] t = [1] := by
    unfold nmsKeepIndices nmsLoop
    rw [hsort]
    show nmsLoopF [b0, b1] t 2 [1, 0] = [1]
    have hprune : pruneStep [b0, b1] t 1 [0] = [] := by
      rw [pruneStep_eq_filter]
      simp [List.filter_cons, not_lt.mpr h]
    show 1 :: nmsLoopF [b0, b1] t 1 (pruneStep [b0, b1] t 1 [0]) = [1]
    rw [hprune]
    rfl
  rw [non_max_suppression_pos [b0, b1] [s, s] t (by simp), hkeep]
  rfl

section
attribute [local semireducible] Rat.sub Rat.mul Rat.add Rat.inv

/-- Witness for the amended C2 at the concrete tied pair of the C2
counterexample: the later-input box (0,0,10,9) is kept. -/
theorem C2_amended_tie_reversal_witness :
    non_max_suppression [⟨0, 0, 10, 10⟩, ⟨0, 0, 10, 9⟩] [9/10, 9/10] (1/2) =
      NmsResult.pair [⟨0, 0, 10, 9⟩] [9/10] :=
  C2_amended_tie_reversal ⟨0, 0, 10, 10⟩ ⟨0, 0, 10, 9⟩ (9/10) (1/2) (by decide)

end

/-- C10: on a non-empty pool of parallel box/score arrays,
`non_max_suppression` returns the pair of sequences indexed by the same kept
index list, so the two outputs have equal length and the i-th returned score
is the input score of the i-th returned box; moreover the kept indices are
pairwise distinct and in range. -/
theorem C10_paired_output (boxes : List Box) (scores : List Rat) (t : Rat)
    (hne : boxes ≠ []) (hlen : scores.length = boxes.length) :
    non_max_suppression boxes scores t =
      NmsResult.pair
        ((nmsKeepIndices boxes scores t).map (fun i => boxes.getD i default))
        ((nmsKeepIndices boxes scores t).map (fun i => scores.getD i 0)) ∧
    ((nmsKeepIndices boxes scores t).map (fun i => boxes.getD i default)).length =
      ((nmsKeepIndices boxes scores t).map (fun i => scores.getD i 0)).length ∧
    (nmsKeepIndices boxes scores t).Nodup ∧
    ∀ i ∈ nmsKeepIndices boxes scores t, i < boxes.length := by
  refine ⟨non_max_suppression_pos boxes scores t
      (fun h0 => hne (List.length_eq_zero.mp h0)),
    by rw [List.length_map, List.length_map],
    nmsKeepIndices_nodup boxes scores t, ?_⟩
  intro i hi
  rw [← hlen]
  exact nmsKeepIndices_mem_lt boxes scores t i hi

section
attribute [local semireducible] Rat.sub Rat.mul Rat.add Rat.inv

/-- Witness for C10 at a concrete two-detection pool. -/
theorem C10_paired_output_witness :
    non_max_suppression [⟨0, 0, 10, 10⟩, ⟨20, 20, 30, 30⟩] [9/10, 4/5] (1/2) =
      NmsResult.pair
        ((nmsKeepIndices [⟨0, 0, 10, 10⟩, ⟨20, 20, 30, 30⟩] [9/10, 4/5] (1/2)).map
          (fun i => [(⟨0, 0, 10, 10⟩ : Box), ⟨20, 20, 30, 30⟩].getD i default))
        ((nmsKeepIndices [⟨0, 0, 10, 10⟩, ⟨20, 20, 30, 30⟩] [9/10, 4/5] (1/2)).map
          (fun i => [(9 : Rat)/10, 4/5].getD i 0)) ∧
    ((nmsKeepIndices [⟨0, 0, 10, 10⟩, ⟨20, 20, 30, 30⟩] [9/10, 4/5] (1/2)).map
        (fun i => [(⟨0, 0, 10, 10⟩ : Box), ⟨20, 20, 30, 30⟩].getD i default)).length =
      ((nmsKeepIndices [⟨0, 0, 10, 10⟩, ⟨20, 20, 30, 30⟩] [9/10, 4/5] (1/2)).map
        (fun i => [(9 : Rat)/10, 4/5].getD i 0)).length ∧
    (nmsKeepIndices [⟨0, 0, 10, 10⟩, ⟨20, 20, 30, 30⟩] [9/10, 4/5] (1/2)).Nodup ∧
    ∀ i ∈ nmsKeepIndices [⟨0, 0, 10, 10⟩, ⟨20, 20, 30, 30⟩] [9/10, 4/5] (1/2),
      i < ([(⟨0, 0, 10, 10⟩ : Box), ⟨20, 20, 30, 30⟩] : List Box).length :=
  C10_paired_output [⟨0, 0, 10, 10⟩, ⟨20, 20, 30, 30⟩] [9/10, 4/5] (1/2)
    (by simp) (by rfl)

end

/-- C3 (amended): each final detection's class id and class name are those of
the first filtered detection whose box and score equal its own; therefore they
equal the originating (NMS-kept) detection's metadata whenever no two filtered
detections share an identical box and score pair.  Under that uniqueness
hypothesis the pipeline output is exactly the kept-index list mapped to full
records read off at the originating index. -/
theorem C3_amended_metadata (raw : List Prediction) (st it : Rat)
    (hne : filtered_boxes raw st ≠ [])
    (huniq : ∀ i ∈ List.range (filtered_boxes raw st).length,
      ∀ j ∈ List.range (filtered_boxes raw st).length,
      (filtered_boxes raw st).getD i default = (filtered_boxes raw st).getD j default →
      (filtered_scores raw st).getD i 0 = (filtered_scores raw st).getD j 0 → i = j) :
    runPipeline raw st it =
      Except.ok ((nmsKeepIndices (filtered_boxes raw st) (filtered_scores raw st) it).map
        (fun k =>
          ⟨((filtered_boxes raw st).getD k default).x1,
           ((filtered_boxes raw st).getD k default).y1,
           ((filtered_boxes raw st).getD k default).x2,
           ((filtered_boxes raw st).getD k default).y2,
           (filtered_scores raw st).getD k 0,
           (filtered_class_ids raw st).getD k 0,
           (filtered_class_names raw st).getD k ""⟩)) := by
  have hn : (filtered_boxes raw st).length ≠ 0 :=
    fun h0 => hne (List.length_eq_zero.mp h0)
  have hlen : (filtered_scores raw st).length = (filtered_boxes raw st).length := by
    unfold filtered_boxes filtered_scores
    rw [List.length_map, List.length_map]
  unfold runPipeline
  rw [non_max_suppression_pos (filtered_boxes raw st) (filtered_scores raw st) it hn]
  show Except.ok (reassemble _ _ _ _ _ _) = _
  congr 1
  unfold reassemble
  rw [List.zip_map']
  rw [List.filterMap_map]
  apply filterMap_eq_map_of_forall
  intro k hk
  have hklt : k < (filtered_boxes raw st).length := by
    rw [← hlen]
    exact nmsKeepIndices_mem_lt (filtered_boxes raw st) (filtered_scores raw st) it k hk
  have hfind : firstMatchIdx (filtered_boxes raw st) (filtered_scores raw st)
      ((filtered_boxes raw st).getD k default) ((filtered_scores raw st).getD k 0) =
        some k := by
    unfold firstMatchIdx
    refine find?_eq_some_of_unique (List.mem_range.mpr hklt) (by simp) ?_
    intro x hx hpx
    simp only [decide_eq_true_eq] at hpx
    exact huniq x hx k (List.mem_range.mpr hklt) hpx.1 hpx.2
  show Option.map _ (firstMatchIdx _ _ _ _) = _
  rw [hfind]
  rfl

section
attribute [local semireducible] Rat.sub Rat.mul Rat.add Rat.inv

/-- Witness for the amended C3 at a concrete two-detection input whose
filtered (box, score) pairs are pairwise distinct. -/
theorem C3_amended_metadata_witness :
    runPipeline [⟨0, 0, 10, 10, 9/10, 0, "người"⟩, ⟨20, 20, 30, 30, 4/5, 1, "xe"⟩]
        (1/2) (1/2) =
      Except.ok ((nmsKeepIndices
          (filtered_boxes [⟨0, 0, 10, 10, 9/10, 0, "người"⟩, ⟨20, 20, 30, 30, 4/5, 1, "xe"⟩] (1/2))
          (filtered_scores [⟨0, 0, 10, 10, 9/10, 0, "người"⟩, ⟨20, 20, 30, 30, 4/5, 1, "xe"⟩] (1/2))
          (1/2)).map
        (fun k =>
          ⟨((filtered_boxes [⟨0, 0, 10, 10, 9/10, 0, "người"⟩, ⟨20, 20, 30, 30, 4/5, 1, "xe"⟩] (1/2)).getD k default).x1,
           ((filtered_boxes [⟨0, 0, 10, 10, 9/10, 0, "người"⟩, ⟨20, 20, 30, 30, 4/5, 1, "xe"⟩] (1/2)).getD k default).y1,
           ((filtered_boxes [⟨0, 0, 10, 10, 9/10, 0, "người"⟩, ⟨20, 20, 30, 30, 4/5, 1, "xe"⟩] (1/2)).getD k default).x2,
           ((filtered_boxes [⟨0, 0, 10, 10, 9/10, 0, "người"⟩, ⟨20, 20, 30, 30, 4/5, 1, "xe"⟩] (1/2)).getD k default).y2,
           (filtered_scores [⟨0, 0, 10, 10, 9/10, 0, "người"⟩, ⟨20, 20, 30, 30, 4/5, 1, "xe"⟩] (1/2)).getD k 0,
           (filtered_class_ids [⟨0, 0, 10, 10, 9/10, 0, "người"⟩, ⟨20, 20, 30, 30, 4/5, 1, "xe"⟩] (1/2)).getD k 0,
           (filtered_class_names [⟨0, 0, 10, 10, 9/10, 0, "người"⟩, ⟨20, 20, 30, 30, 4/5, 1, "xe"⟩] (1/2)).getD k ""⟩)) :=
  C3_amended_metadata
    [⟨0, 0, 10, 10, 9/10, 0, "người"⟩, ⟨20, 20, 30, 30, 4/5, 1, "xe"⟩] (1/2) (1/2)
    (by decide) (by decide)

end

/-- C7 (amended): re-running `non_max_suppression` on its own output with the
same threshold changes nothing, provided all scores are pairwise distinct:
with no ties the kept output is strictly score-descending, the second argsort
reproduces the same processing order, and the kept boxes' pairwise IoUs are
all strictly below the threshold, so no pruning happens.  (With tied scores
the kept set of box/score pairs is unchanged but a tied group comes back in
reversed order, as the C7 counterexample shows, so the claim as stated fails.) -/
theorem C7_amended_idempotent (boxes : List Box) (scores : List Rat) (t : Rat)
    (hne : boxes ≠ []) (hlen : scores.length = boxes.length) (hnodup : scores.Nodup)
    (bs : List Box) (ss : List Rat)
    (h : non_max_suppression boxes scores t = NmsResult.pair bs ss) :
    non_max_suppression bs ss t = NmsResult.pair bs ss := by
  have hn : boxes.length ≠ 0 := fun h0 => hne (List.length_eq_zero.mp h0)
  rw [non_max_suppression_pos boxes scores t hn] at h
  injection h with hbs hss
  have hkeepne : nmsKeepIndices boxes scores t ≠ [] :=
    nmsKeepIndices_ne_nil boxes scores t (by rw [hlen]; exact hn)
  have hstrict : (nmsKeepIndices boxes scores t).Pairwise
      (fun a b => scores.getD b 0 < scores.getD a 0) := by
    have h1 := (nmsKeepIndices_sorted boxes scores t).and
      (nmsKeepIndices_nodup boxes scores t)
    refine h1.imp_of_mem ?_
    intro a b ha hb hr
    refine lt_of_le_of_ne hr.1 ?_
    exact getD_ne_of_nodup scores hnodup b a
      (nmsKeepIndices_mem_lt boxes scores t b hb)
      (nmsKeepIndices_mem_lt boxes scores t a ha)
      (Ne.symm hr.2)
  have hsslen : ss.length = (nmsKeepIndices boxes scores t).length := by
    rw [← hss, List.length_map]
  have hbslen : bs.length = (nmsKeepIndices boxes scores t).length := by
    rw [← hbs, List.length_map]
  have hssbs : ss.length = bs.length := by rw [hsslen, hbslen]
  have hss_desc : ss.Pairwise (fun x y => y < x) := by
    rw [← hss]
    exact List.pairwise_map.mpr hstrict
  have hbs_iou : bs.Pairwise (fun x y => iou x y < t) := by
    rw [← hbs]
    exact List.pairwise_map.mpr (nmsKeepIndices_pairwise_iou boxes scores t)
  have hbsn : bs.length ≠ 0 := by
    rw [hbslen]
    intro h0
    exact hkeepne (List.length_eq_zero.mp h0)
  have hargsort : argsortAsc ss = (List.range ss.length).reverse := by
    unfold argsortAsc
    exact foldr_insertAsc_of_desc ss _ (pairwise_range_getD 0 ss hss_desc)
  have hkeep2 : nmsKeepIndices bs ss t = List.range ss.length := by
    unfold nmsKeepIndices nmsLoop
    rw [hargsort, List.reverse_reverse]
    refine nmsLoopF_eq_self bs t _ _ (le_refl _) ?_
    have h2 := pairwise_range_getD default bs hbs_iou
    rw [hssbs]
    exact h2
  rw [non_max_suppression_pos bs ss t hbsn, hkeep2]
  congr 1
  · rw [hssbs]
    exact map_getD_range bs default
  · exact map_getD_range ss 0

section
attribute [local semireducible] Rat.sub Rat.mul Rat.add Rat.inv

/-- Witness for the amended C7 at a concrete pool with distinct scores: the
first run keeps both disjoint boxes, and passing its output back through
`non_max_suppression` reproduces it exactly. -/
theorem C7_amended_idempotent_witness :
    non_max_suppression [⟨0, 0, 10, 10⟩, ⟨20, 20, 30, 30⟩] [9/10, 4/5] (1/2) =
      NmsResult.pair [⟨0, 0, 10, 10⟩, ⟨20, 20, 30, 30⟩] [9/10, 4/5] :=
  C7_amended_idempotent [⟨0, 0, 10, 10⟩, ⟨20, 20, 30, 30⟩] [9/10, 4/5] (1/2)
    (by simp) (by rfl) (by decide)
    [⟨0, 0, 10, 10⟩, ⟨20, 20, 30, 30⟩] [9/10, 4/5] (by decide)

end
